import Mathlib

/-!
Shallow embedding of the laudspeaker background-synchronization engine:
the cron service (`packages/server/src/app.cron.service.ts`) and the
integrations processor (warehouse sync / Databricks connector).

JavaScript runtime values that the code manipulates dynamically are
modelled by the inductive type `JVal`; a JS object is an association
list `JObj` whose key order mirrors JS insertion order.  JS `Date`
objects are modelled by their time value: `some ms`, with `none`
standing for an Invalid Date (a `NaN` time value).
-/

/-- A dynamic JavaScript value as seen by the cron / sync code. -/
inductive JVal where
  | vnull
  | vundef
  | vbool (b : Bool)
  | vnum (n : Int)
  | vstr (s : String)
  | varr (elems : List JVal)

mutual

/-- Structural equality on `JVal` (JS `===` on primitives; arrays
compared element-wise, which the embedding uses for query matching). -/
def JVal.beq : JVal → JVal → Bool
  | .vnull, .vnull => true
  | .vundef, .vundef => true
  | .vbool a, .vbool b => a == b
  | .vnum a, .vnum b => a == b
  | .vstr a, .vstr b => a == b
  | .varr a, .varr b => JVal.beqList a b
  | _, _ => false

/-- Element-wise equality of `JVal` lists, mutual with `JVal.beq`. -/
def JVal.beqList : List JVal → List JVal → Bool
  | [], [] => true
  | a :: as, b :: bs => JVal.beq a b && JVal.beqList as bs
  | _, _ => false

end

instance : BEq JVal := ⟨JVal.beq⟩

/-- JS truthiness of a value (`null`, `undefined`, `false`, `0`, and
the empty string are falsy; every array/object is truthy). -/
def jsTruthy : JVal → Bool
  | .vnull => false
  | .vundef => false
  | .vbool b => b
  | .vnum n => n != 0
  | .vstr s => s != ""
  | .varr _ => true

/-- A JS object: an association list in key insertion order. -/
abbrev JObj := List (String × JVal)

/-- Property read `o[k]`: first binding of `k`, `undefined` if absent. -/
def jget (o : JObj) (k : String) : JVal :=
  match o with
  | [] => .vundef
  | (k', v) :: rest => if k' == k then v else jget rest k

/-- Property write `o[k] = v`: overwrite the first binding of `k`
in place, or append a fresh binding (JS insertion-order semantics). -/
def jset (o : JObj) (k : String) (v : JVal) : JObj :=
  match o with
  | [] => [(k, v)]
  | (k', v') :: rest => if k' == k then (k, v) :: rest else (k', v') :: jset rest k v

/-! ## Watermark Tracker (`handleClickHouseCron`, lines 164-171)

`getLastFetchedEventTimestamp` runs `SELECT MAX(createdAt) FROM
message_status`; the cron job then computes

  const lastEventFetch =
    new Date(new Date(dateInDB).getTime()
             - new Date().getTimezoneOffset() * 60 * 1000)
    || new Date('2000-10-10');

A JS `Date` is modelled by its time value; `none` is an Invalid Date
(`NaN` time value, as produced by `new Date(undefined)`). -/

/-- Time value of a JS `Date`: `some` milliseconds, or `none` for an
Invalid Date whose `getTime()` is `NaN`. -/
abbrev JSDate := Option Int

/-- `new Date(t)` from a (possibly `NaN`) millisecond value. -/
def jsNewDateMs (t : Option Int) : JSDate := t

/-- `d.getTime()`: the (possibly `NaN`) millisecond value. -/
def jsDateGetTime (d : JSDate) : Option Int := d

/-- `NaN`-propagating subtraction of a plain number from a JS number. -/
def jsSubNaN (a : Option Int) (b : Int) : Option Int := a.map (fun x => x - b)

/-- JS truthiness of a `Date` object: every object is truthy in
JavaScript, including an Invalid Date. -/
def jsDateTruthy (_ : JSDate) : Bool := true

/-- JS `a || b` on two `Date` objects: returns `a` when `a` is truthy,
which is always, because objects are unconditionally truthy. -/
def jsOrDate (a b : JSDate) : JSDate := if jsDateTruthy a then a else b

/-- Time value of `new Date('2000-10-10')` (UTC milliseconds). -/
def epochFloor2000_10_10 : Int := 971136000000

/-- Lines 164-171 of `app.cron.service.ts`: the watermark used as the
lower fetch bound.  `dateInDB` is the parsed `max(createdAt)` read
from the analytical sink (`none` when the sink has no rows, so that
`new Date(dateInDB)` is an Invalid Date), `tzOffsetMin` is
`new Date().getTimezoneOffset()`. -/
def lastEventFetch (dateInDB : Option Int) (tzOffsetMin : Int) : JSDate :=
  jsOrDate
    (jsNewDateMs (jsSubNaN (jsDateGetTime (jsNewDateMs dateInDB)) (tzOffsetMin * 60 * 1000)))
    (jsNewDateMs (some epochFloor2000_10_10))

/-! ## Schema Discovery Job (`handleCustomerKeysCron`, lines 86-159)

The job scans customer documents, accumulates per-field sample lists
(skipping the structural keys), picks the first usable sample of each
field and upserts one `CustomerKeys` row per field.  The external
validators `isEmail` / `isDateString` from `class-validator` are out
of the repository; they enter the model as oracle parameters. -/

/-- Line 64: `const KEYS_TO_SKIP = ['__v', '_id', 'audiences', 'ownerId']`. -/
def KEYS_TO_SKIP : List String := ["__v", "_id", "audiences", "ownerId"]

/-- Line 63: `const BATCH_SIZE = 500`. -/
def BATCH_SIZE : Nat := 500

/-- Lines 120-122: the predicate of
`keys[key].find((item) => item !== '' && item !== undefined && item !== null)`. -/
def usableSample : JVal → Bool
  | .vstr "" => false
  | .vundef => false
  | .vnull => false
  | _ => true

/-- Runtime type name of a value as reported by `getType(...).name`. -/
def typeName : JVal → String
  | .vstr _ => "String"
  | .vnum _ => "Number"
  | .vbool _ => "Boolean"
  | .vnull => "null"
  | .vundef => "undefined"
  | .varr _ => "Array"

/-- Lines 131-134: string refinement of an inferred base type.

  if (type === 'String') {
    if (isEmail(validItem)) type = 'Email';
    if (isDateString(validItem)) type = 'Date';
  }

Both inner conditionals run sequentially (there is no `else`), so a
`Date` verdict overwrites an `Email` verdict. -/
def refineType (isEmail isDateString : JVal → Bool) (v : JVal) (type0 : String) : String :=
  if type0 == "String" then
    let t := if isEmail v then "Email" else type0
    if isDateString v then "Date" else t
  else type0

/-- The metadata written to one `CustomerKeys` row. -/
structure KeyMeta where
  type : String
  isArray : Bool
deriving DecidableEq

/-- Lines 127-134: infer `{type, isArray}` from the representative
sample.  For arrays the base type is `getType(validItem[0]).name`;
the refinement predicates are still applied to `validItem` itself. -/
def inferKeyMeta (isEmail isDateString : JVal → Bool) (v : JVal) : KeyMeta :=
  let isArr := match v with | .varr _ => true | _ => false
  let type0 := match v with
    | .varr elems => typeName (elems.headD .vundef)
    | _ => typeName v
  ⟨refineType isEmail isDateString v type0, isArr⟩

/-- Lines 119-148, body of the per-field loop: find the first usable
sample; if the `find` result is `''`/`undefined`/`null` (in
particular when `find` yields `undefined` because nothing matched),
skip the field; otherwise produce the metadata to upsert. -/
def processKey (isEmail isDateString : JVal → Bool) (samples : List JVal) : Option KeyMeta :=
  match samples.find? usableSample with
  | none => none
  | some v =>
    if usableSample v = false then none
    else some (inferKeyMeta isEmail isDateString v)

/-- Lines 108-113: `keys[key]` exists → push the value, otherwise
start a fresh singleton sample list under `key`. -/
def addSample (acc : List (String × List JVal)) (k : String) (v : JVal) :
    List (String × List JVal) :=
  match acc with
  | [] => [(k, [v])]
  | (k', vs) :: rest =>
    if k' == k then (k, vs ++ [v]) :: rest else (k', vs) :: addSample rest k v

/-- Lines 96-117: batched scan of the customer collection,
accumulating per-field sample lists and skipping `KEYS_TO_SKIP`.
Over a static snapshot the offset/limit batching visits each
document once in order, so the scan is modelled directly on the
document list. -/
def addObjSamples (acc : List (String × List JVal)) (obj : JObj) :
    List (String × List JVal) :=
  obj.foldl
    (fun acc2 kv => if kv.1 ∈ KEYS_TO_SKIP then acc2 else addSample acc2 kv.1 kv.2)
    acc

/-- Lines 96-117 (continued): fold the per-document accumulation over
the whole scan. -/
def aggregateKeys (customers : List JObj) : List (String × List JVal) :=
  customers.foldl addObjSamples []

/-- Lines 119-149: the full run's upserts, one per field whose sample
list has a usable representative, keyed on the field name. -/
def customerKeysUpserts (isEmail isDateString : JVal → Bool) (customers : List JObj) :
    List (String × KeyMeta) :=
  (aggregateKeys customers).filterMap
    (fun kv => (processKey isEmail isDateString kv.2).map (fun m => (kv.1, m)))

/-! ## Provider Event Ingestion: pull-based pagination
(`handleClickHouseCron`, lines 198-256)

One Mailgun event item carries a timestamp (seconds), the
caller-supplied correlation variables, an event type and a message
id.  The continuation guard of the pagination loop is

  lastEventTimestamp = events.items[events.items.length - 1]?.timestamp * 1000;
  while (lastEventTimestamp && new Date(lastEventTimestamp) > lastEventFetch) ...

where `undefined * 1000` is `NaN`.  JS numbers that may be `NaN` are
modelled as `Option Int` with `none` for `NaN`. -/

/-- One item of a Mailgun events page. -/
structure MgItem where
  timestamp : Int
  audienceId : JVal
  customerId : JVal
  event : String
  messageId : String

/-- A normalized message-status row bound for the analytical sink. -/
structure CHMessage where
  audienceId : JVal
  customerId : JVal
  messageId : String
  event : String
  eventProvider : String
  createdAt : Int

/-- Lines 222-223 / 251-252:
`events.items[events.items.length - 1]?.timestamp * 1000`; on an
empty page the optional chain yields `undefined` and the product is
`NaN` (`none`). -/
def lastPageTs (items : List MgItem) : Option Int :=
  match items.getLast? with
  | none => none
  | some it => some (it.timestamp * 1000)

/-- JS truthiness of a possibly-`NaN` number (`NaN` and `0` are falsy). -/
def jsTruthyNum : Option Int → Bool
  | none => false
  | some n => n != 0

/-- JS `new Date(a) > d` comparison: numeric on time values, `false`
whenever either side is `NaN`/Invalid. -/
def jsDateGtNum (a : Option Int) (d : JSDate) : Bool :=
  match a, d with
  | some x, some y => y < x
  | _, _ => false

/-- Lines 225-228: the `while` guard of the pagination loop. -/
def mgGuard (watermark : JSDate) (lastTs : Option Int) : Bool :=
  jsTruthyNum lastTs && jsDateGtNum lastTs watermark

/-- Lines 205-219 / 235-249: normalize one provider item; items
lacking a truthy `audienceId` or `customerId` are dropped. -/
def normalizeItem (it : MgItem) : Option CHMessage :=
  if jsTruthy it.audienceId = false || jsTruthy it.customerId = false then none
  else some ⟨it.audienceId, it.customerId, it.messageId, it.event, "mailgun", it.timestamp * 1000⟩

/-- Lines 225-255: the pagination loop for one account.  `script` is
the sequence of pages the provider would serve to the successive page
requests; the result is the accumulated batch together with the
number of page requests the loop actually made. -/
def mgLoop (watermark : JSDate) (lastTs : Option Int) (script : List (List MgItem))
    (acc : List CHMessage) : List CHMessage × Nat :=
  if mgGuard watermark lastTs then
    match script with
    | [] => (acc, 0)
    | items :: rest =>
      let r := mgLoop watermark (lastPageTs items) rest (acc ++ items.filterMap normalizeItem)
      (r.1, r.2 + 1)
  else (acc, 0)

/-! ## Provider Event Ingestion: push-based drain
(`handleClickHouseCron`, lines 268-283)

  let batch = await this.sendgridEventRepository.find({ take: BATCH_SIZE });
  while (batch.length > 0) {
    await insertMessages(batch.map((item) => ({ ...item, eventProvider: 'sendgrid' })));
    for (const item of batch) await this.sendgridEventRepository.delete(item);
    batch = await this.sendgridEventRepository.find({ take: BATCH_SIZE });
  }

Staging rows are modelled by their primary keys (`Nat`); deleting a
row removes exactly the matching row (`List.erase`), and the sink
receives the row tagged with the provider name.  The loop is embedded
with fuel; `none` means the fuel ran out before the loop finished. -/

/-- The evolving state of the push-provider drain: the staging table,
the analytical sink contents added by this run, and the log of fetch
sizes (one entry per `find`, including the final empty fetch). -/
structure SgState where
  staging : List Nat
  sink : List (Nat × String)
  fetchLog : List Nat
deriving DecidableEq

/-- Lines 268-283: the drain loop.  Each iteration fetches the first
`BATCH_SIZE` staging rows, bulk-inserts them into the sink tagged
with `"sendgrid"`, then deletes each fetched row from staging. -/
def sgDrain : Nat → SgState → Option SgState
  | 0, _ => none
  | fuel + 1, st =>
    let batch := st.staging.take BATCH_SIZE
    if batch.length > 0 then
      sgDrain fuel
        ⟨batch.foldl List.erase st.staging,
         st.sink ++ batch.map (fun r => (r, "sendgrid")),
         st.fetchLog ++ [batch.length]⟩
    else some ⟨st.staging, st.sink, st.fetchLog ++ [batch.length]⟩

/-! ## Warehouse Sync Job (`IntegrationsProcessor`)

`handleDatabricksSync` (lines 79-126) streams chunks from a remote
query cursor and upserts each row into the customer store; the
identifying column is `id`, the correlation field `databricksId`.
`handleDatabaseSync` (lines 56-77) validates the task, applies the
frequency gate, dispatches by `dbType` and writes back `lastSync`. -/

/-- First customer matching the connector-row lookup
`findOne({ databricksId: customer.id, ownerId: owner.id })`. -/
def findFirst (p : JObj → Bool) : List JObj → Option JObj
  | [] => none
  | c :: rest => if p c then some c else findFirst p rest

/-- Replace the first record satisfying `p` by its image under `f`
(the in-place `customerInDb.save()` of the matched document). -/
def updateFirst (p : JObj → Bool) (f : JObj → JObj) : List JObj → List JObj
  | [] => []
  | c :: rest => if p c then f c :: rest else c :: updateFirst p f rest

/-- Lines 101-102: the Mongo query matching a stored customer against
the connector row's identifier and the owning account. -/
def matchesRow (rowId : JVal) (ownerId : Int) (c : JObj) : Bool :=
  JVal.beq (jget c "databricksId") rowId && JVal.beq (jget c "ownerId") (.vnum ownerId)

/-- Lines 106-110: merge every returned field except `id` into the
existing record, in the row's key order. -/
def mergeRow (c : JObj) (row : JObj) : JObj :=
  row.foldl (fun acc kv => if kv.1 == "id" then acc else jset acc kv.1 kv.2) c

/-- Lines 113-118: the created document
`{...customer, ownerId: owner.id, id: undefined, databricksId: customer.id}`. -/
def createFromRow (ownerId : Int) (row : JObj) : JObj :=
  jset (jset (jset row "ownerId" (.vnum ownerId)) "id" .vundef) "databricksId" (jget row "id")

/-- Lines 99-120: process one connector row against the customer
store.  Rows with a falsy `id` are skipped; otherwise the first
matching record is field-merged, or a new record is created. -/
def processCustomerRow (ownerId : Int) (store : List JObj) (row : JObj) : List JObj :=
  if jsTruthy (jget row "id") = false then store
  else
    match findFirst (matchesRow (jget row "id") ownerId) store with
    | some _ => updateFirst (matchesRow (jget row "id") ownerId) (fun c => mergeRow c row) store
    | none => store ++ [createFromRow ownerId row]

/-- Outcome of one `handleDatabricksSync` run: the customer store
after the run, whether an error escaped, and which remote resources
were closed.  There is no `try`/`finally` in the source, so on an
error nothing is closed; on normal completion only
`queryOperation.close()` runs — `session` is never closed. -/
structure DbxResult where
  store : List JObj
  error : Bool
  cursorClosed : Bool
  sessionClosed : Bool

/-- Lines 93-125: the fetch loop of `handleDatabricksSync`.  `fetch i`
is the outcome the remote cursor gives the `i`-th `fetchChunk` call:
either an error (a rejected promise from `fetchChunk` or from the
row processing of that chunk) or a chunk of rows together with the
subsequent `hasMoreRows()` answer.  Fuel bounds the number of
iterations; `none` means the loop was still running when the fuel
ran out. -/
def dbxRun (ownerId : Int) (fetch : Nat → Except Unit (List JObj × Bool)) :
    Nat → Nat → List JObj → Option DbxResult
  | 0, _, _ => none
  | fuel + 1, i, store =>
    match fetch i with
    | .error _ => some ⟨store, true, false, false⟩
    | .ok (rows, hasMore) =>
      let store' := rows.foldl (fun s row => processCustomerRow ownerId s row) store
      if hasMore then dbxRun ownerId fetch fuel (i + 1) store'
      else some ⟨store', false, true, false⟩

/-- `FrequencyUnit` of `database.entity.ts`. -/
inductive FrequencyUnit where
  | hour
  | day
  | week
  | month
  | year
deriving DecidableEq

/-- Lines 20-32: `frequencyUnitToMsMap`. -/
def frequencyUnitToMs : FrequencyUnit → Int
  | .hour => 60 * 60 * 1000
  | .day => 24 * 60 * 60 * 1000
  | .week => 7 * 24 * 60 * 60 * 1000
  | .month => 30 * 24 * 60 * 60 * 1000
  | .year => 365 * 24 * 60 * 60 * 1000

/-- `DBType` of `database.entity.ts`: the two connector keys of
`databasesMap` (lines 43-53). -/
inductive DBType where
  | databricks
  | postgresql
deriving DecidableEq

/-- The database configuration carried by an integration (the fields
`handleDatabaseSync` reads).  `lastSync` is the parsed time value of
the stored last-sync string. -/
structure Database where
  dbType : DBType
  frequencyNumber : Int
  frequencyUnit : FrequencyUnit
  lastSync : Int

/-- The integration payload of a warehouse-sync task. -/
structure Integration where
  database : Option Database
  ownerId : Int

/-- Line 62-64: `syncTime = new Date(lastSync).getTime() +
frequencyNumber * frequencyUnitToMsMap[frequencyUnit]`. -/
def syncTime (db : Database) : Int :=
  db.lastSync + db.frequencyNumber * frequencyUnitToMs db.frequencyUnit

/-- Observable outcome of `handleDatabaseSync` on one task. -/
inductive SyncOutcome where
  | invalid
  | skipped (store : List JObj)
  | connectorError (store : List JObj)
  | synced (store : List JObj) (lastSyncWritten : Int)
  | fuelOut

/-- Lines 56-77: the warehouse-sync job body.  A task without an
integration or database is rejected (`invalid` models the thrown
`'Wrong integration was passed to job'`).  The frequency gate
`if (new Date(syncTime) < new Date()) return;` skips the task when
the computed due time is before `now`.  Otherwise the job dispatches
through `databasesMap`: the PostgreSQL entry is an empty function,
the Databricks entry runs `handleDatabricksSync` (whose error would
propagate and skip the `lastSync` write); on connector completion the
job saves `lastSync = now`. -/
def handleDatabaseSync (integration : Option Integration) (now : Int) (store : List JObj)
    (fetch : Nat → Except Unit (List JObj × Bool)) (fuel : Nat) : SyncOutcome :=
  match integration with
  | none => .invalid
  | some ig =>
    match ig.database with
    | none => .invalid
    | some db =>
      if syncTime db < now then .skipped store
      else
        match db.dbType with
        | .postgresql => .synced store now
        | .databricks =>
          match dbxRun ig.ownerId fetch fuel 0 store with
          | none => .fuelOut
          | some r => if r.error then .connectorError r.store else .synced r.store now

/-! ## Theorems -/

/-- C1: for the Provider Event Ingestion Job, when the analytical sink
holds rows the watermark is the sink's maximum `createdAt` adjusted by
the timezone offset; but when the sink holds no rows the watermark is
an Invalid Date, not the fixed epoch floor `2000-10-10`: the
`|| new Date('2000-10-10')` fallback is dead code, because a `Date`
object (even an Invalid Date) is always truthy in JavaScript. -/
theorem watermark_empty_sink_bug :
    (∀ d tz : Int, lastEventFetch (some d) tz = some (d - tz * 60 * 1000)) ∧
    (∀ tz : Int, lastEventFetch none tz = none) ∧
    (∀ tz : Int, lastEventFetch none tz ≠ some epochFloor2000_10_10) := by
  refine ⟨fun d tz => rfl, fun tz => rfl, fun tz h => ?_⟩
  rw [show lastEventFetch none tz = none from rfl] at h
  exact Option.noConfusion h

/-- C4 counterexample: on a string representative accepted by both
validators, the inferred type is `Date`, not `Email` — the second
conditional has no `else` and overwrites the `Email` verdict. -/
theorem refineType_overlap_cex :
    refineType (fun _ => true) (fun _ => true) (JVal.vstr "2024-01-01@mail.example") "String"
        = "Date" ∧
    refineType (fun _ => true) (fun _ => true) (JVal.vstr "2024-01-01@mail.example") "String"
        ≠ "Email" := by
  refine ⟨rfl, ?_⟩
  decide

/-- C4 amended: for a string representative, the inferred type is
`Date` whenever the date-string check accepts (overriding any `Email`
verdict), `Email` when only the email check accepts, and `String`
when neither accepts. -/
theorem refineType_amended (isEmail isDateString : JVal → Bool) (v : JVal) :
    (isDateString v = true →
      refineType isEmail isDateString v "String" = "Date") ∧
    (isEmail v = true → isDateString v = false →
      refineType isEmail isDateString v "String" = "Email") ∧
    (isEmail v = false → isDateString v = false →
      refineType isEmail isDateString v "String" = "String") := by
  refine ⟨fun hd => ?_, fun he hd => ?_, fun he hd => ?_⟩
  · simp [refineType, hd]
  · simp [refineType, he, hd]
  · simp [refineType, he, hd]

/-- Witness for `refineType_amended` at concrete validator verdicts. -/
theorem refineType_amended_witness :
    refineType (fun _ => false) (fun _ => true) (JVal.vstr "2020-05-05") "String" = "Date" ∧
    refineType (fun _ => true) (fun _ => false) (JVal.vstr "a@b.io") "String" = "Email" :=
  ⟨(refineType_amended (fun _ => false) (fun _ => true) (JVal.vstr "2020-05-05")).1 rfl,
   (refineType_amended (fun _ => true) (fun _ => false) (JVal.vstr "a@b.io")).2.1 rfl rfl⟩

/-- C2 counterexample: a run whose first `fetchChunk` rejects ends
with the error propagating while neither the query cursor nor the
session has been closed — there is no `finally`-style cleanup in
`handleDatabricksSync`. -/
theorem dbx_error_skips_close_cex :
    dbxRun 1 (fun _ => Except.error ()) 1 0 [] = some ⟨[], true, false, false⟩ ∧
    (DbxResult.mk [] true false false).error = true ∧
    (DbxResult.mk [] true false false).cursorClosed = false ∧
    (DbxResult.mk [] true false false).sessionClosed = false :=
  ⟨rfl, rfl, rfl, rfl⟩

/-- C2 amended: the query cursor is closed exactly when the fetch
loop completes without an error; an error raised while fetching or
processing a chunk propagates with no close having run, and the
session is never explicitly closed in either case. -/
theorem dbx_close_iff_no_error (ownerId : Int) (fetch : Nat → Except Unit (List JObj × Bool))
    (fuel i : Nat) (store : List JObj) (r : DbxResult)
    (h : dbxRun ownerId fetch fuel i store = some r) :
    r.cursorClosed = !r.error ∧ r.sessionClosed = false := by
  induction fuel generalizing i store with
  | zero => exact Option.noConfusion h
  | succ fuel ih =>
    rw [dbxRun] at h
    cases hf : fetch i with
    | error e =>
      rw [hf] at h
      cases h
      exact ⟨rfl, rfl⟩
    | ok chunk =>
      rw [hf] at h
      by_cases hm : chunk.2 = true
      · simp only [hm, if_true] at h
        exact ih _ _ h
      · simp only [Bool.not_eq_true] at hm
        simp only [hm, if_false] at h
        cases h
        exact ⟨rfl, rfl⟩

/-- Witness for `dbx_close_iff_no_error`: a run whose single chunk
succeeds closes the cursor and leaves the session open. -/
theorem dbx_close_iff_no_error_witness :
    (DbxResult.mk [] false true false).cursorClosed = !(DbxResult.mk [] false true false).error ∧
    (DbxResult.mk [] false true false).sessionClosed = false :=
  dbx_close_iff_no_error 0 (fun _ => Except.ok ([], false)) 1 0 [] _ rfl

/-- C9: the pull-provider pagination loop stops after an empty page:
the continuation guard computes the last item's timestamp, which on
an empty page is `NaN` (falsy), so the guard fails and no further
page is requested. -/
theorem mg_empty_page_stops :
    (∀ watermark : JSDate, mgGuard watermark (lastPageTs []) = false) ∧
    (∀ (watermark : JSDate) (script : List (List MgItem)) (acc : List CHMessage),
      mgLoop watermark (lastPageTs []) script acc = (acc, 0)) ∧
    (∀ (watermark : JSDate) (lastTs : Option Int) (rest : List (List MgItem))
      (acc : List CHMessage),
      mgGuard watermark lastTs = true →
      mgLoop watermark lastTs ([] :: rest) acc = (acc, 1)) := by
  have hguard : ∀ watermark : JSDate, mgGuard watermark (lastPageTs []) = false := by
    intro watermark
    rfl
  have hloop : ∀ (watermark : JSDate) (script : List (List MgItem)) (acc : List CHMessage),
      mgLoop watermark (lastPageTs []) script acc = (acc, 0) := by
    intro watermark script acc
    rw [mgLoop.eq_def, hguard]
    simp
  refine ⟨hguard, hloop, fun watermark lastTs rest acc hg => ?_⟩
  rw [mgLoop.eq_def, hg]
  simp [hloop]

/-- Witness for `mg_empty_page_stops`: with a live guard, an empty
page is fetched and then the loop stops after that single request. -/
theorem mg_empty_page_stops_witness :
    mgLoop (some 0) (some 1000) [[]] [] = ([], 1) :=
  mg_empty_page_stops.2.2 (some 0) (some 1000) [] [] rfl

/-- C3: for a warehouse-sync task carrying a database configuration,
the job skips (returning without dispatch and without a `lastSync`
write) exactly when `lastSync + frequencyNumber × unitDuration` is
already in the past; consequently for `lastSync = T`,
`frequencyNumber = 1`, `frequencyUnit = DAY`, a task evaluated at
`T + 12h` proceeds (dispatching and writing back `lastSync = now`)
and a task evaluated at `T + 2 days` is skipped. -/
theorem db_sync_frequency_gate :
    (∀ (db : Database) (ownerId now : Int) (store : List JObj)
      (fetch : Nat → Except Unit (List JObj × Bool)) (fuel : Nat),
      handleDatabaseSync (some ⟨some db, ownerId⟩) now store fetch fuel = .skipped store ↔
        syncTime db < now) ∧
    (∀ (T ownerId : Int) (store : List JObj)
      (fetch : Nat → Except Unit (List JObj × Bool)) (fuel : Nat),
      handleDatabaseSync (some ⟨some ⟨.postgresql, 1, .day, T⟩, ownerId⟩)
          (T + 43200000) store fetch fuel = .synced store (T + 43200000) ∧
      handleDatabaseSync (some ⟨some ⟨.postgresql, 1, .day, T⟩, ownerId⟩)
          (T + 172800000) store fetch fuel = .skipped store) := by
  constructor
  · intro db ownerId now store fetch fuel
    rw [handleDatabaseSync]
    by_cases hdue : syncTime db < now
    · simp [hdue]
    · simp only [hdue, if_false, iff_false]
      cases db.dbType with
      | postgresql => intro h; exact SyncOutcome.noConfusion h
      | databricks =>
        cases hr : dbxRun ownerId fetch fuel 0 store with
        | none => intro h; exact SyncOutcome.noConfusion h
        | some r =>
          by_cases he : r.error = true
          · simp only [he, if_true]
            intro h; exact SyncOutcome.noConfusion h
          · simp only [Bool.not_eq_true] at he
            simp only [he, Bool.false_eq_true, if_false]
            intro h; exact SyncOutcome.noConfusion h
  · intro T ownerId store fetch fuel
    constructor
    · simp only [handleDatabaseSync]
      rw [if_neg (by simp only [syncTime, frequencyUnitToMs]; omega)]
    · simp only [handleDatabaseSync]
      rw [if_pos (by simp only [syncTime, frequencyUnitToMs]; omega)]

/-- C10: a valid, due warehouse-sync task whose `dbType` is the
unimplemented PostgreSQL connector performs no read or write on the
customer store (the store is returned unchanged), yet still
overwrites the integration's `lastSync` with the current time. -/
theorem postgres_noop_advances_lastSync (db : Database) (ownerId now : Int)
    (store : List JObj) (fetch : Nat → Except Unit (List JObj × Bool)) (fuel : Nat)
    (hty : db.dbType = .postgresql) (hdue : ¬ syncTime db < now) :
    handleDatabaseSync (some ⟨some db, ownerId⟩) now store fetch fuel =
      .synced store now := by
  simp only [handleDatabaseSync]
  rw [if_neg hdue, hty]

/-- Witness for `postgres_noop_advances_lastSync` at a concrete task:
the store is untouched and `lastSync` is written to the evaluation
time. -/
theorem postgres_noop_advances_lastSync_witness :
    handleDatabaseSync (some ⟨some ⟨.postgresql, 1, .day, 0⟩, 5⟩) 1000
        [[("name", JVal.vstr "a")]] (fun _ => Except.error ()) 0 =
      .synced [[("name", JVal.vstr "a")]] 1000 :=
  postgres_noop_advances_lastSync ⟨.postgresql, 1, .day, 0⟩ 5 1000
    [[("name", JVal.vstr "a")]] (fun _ => Except.error ()) 0 rfl (by decide)


/-! ### Association-list lemmas for the warehouse merge -/

theorem strBeqTrue {a b : String} (h : a = b) : (a == b) = true := by
  simp [h]

theorem strBeqFalse {a b : String} (h : a ≠ b) : ¬ ((a == b) = true) := by
  simp only [beq_iff_eq]
  exact h

theorem jget_jset_self (o : JObj) (k : String) (v : JVal) : jget (jset o k v) k = v := by
  induction o with
  | nil => simp [jset, jget]
  | cons kv rest ih =>
    obtain ⟨k0, v0⟩ := kv
    by_cases h : k0 = k
    · simp [jset, jget, h]
    · simp [jset, jget, h, ih]

theorem jget_jset_ne (o : JObj) (k k' : String) (v : JVal) (h : k' ≠ k) :
    jget (jset o k v) k' = jget o k' := by
  induction o with
  | nil =>
    show jget [(k, v)] k' = jget [] k'
    simp only [jget]
    rw [if_neg (strBeqFalse (fun he => h he.symm))]
  | cons kv rest ih =>
    obtain ⟨k0, v0⟩ := kv
    show jget (if (k0 == k) = true then (k, v) :: rest else (k0, v0) :: jset rest k v) k' =
      jget ((k0, v0) :: rest) k'
    by_cases h0 : k0 = k
    · rw [if_pos (strBeqTrue h0)]
      show (if (k == k') = true then v else jget rest k') =
        if (k0 == k') = true then v0 else jget rest k'
      rw [if_neg (strBeqFalse (fun he => h he.symm)),
          if_neg (strBeqFalse (fun he => h (h0 ▸ he).symm))]
    · rw [if_neg (strBeqFalse h0)]
      show (if (k0 == k') = true then v0 else jget (jset rest k v) k') =
        if (k0 == k') = true then v0 else jget rest k'
      by_cases h1 : k0 = k'
      · rw [if_pos (strBeqTrue h1), if_pos (strBeqTrue h1)]
      · rw [if_neg (strBeqFalse h1), if_neg (strBeqFalse h1)]
        exact ih

theorem jget_of_mem_nodup (o : JObj) (hn : (o.map Prod.fst).Nodup) (k : String) (v : JVal)
    (h : (k, v) ∈ o) : jget o k = v := by
  induction o with
  | nil => cases h
  | cons kv rest ih =>
    obtain ⟨k0, v0⟩ := kv
    simp only [List.map_cons, List.nodup_cons] at hn
    rcases List.mem_cons.mp h with heq | hmem
    · cases heq
      simp [jget]
    · have hk : k0 ≠ k := by
        intro he
        exact hn.1 (he ▸ (List.mem_map.mpr ⟨(k, v), hmem, rfl⟩))
      show (if (k0 == k) = true then v0 else jget rest k) = v
      rw [if_neg (strBeqFalse hk)]
      exact ih hn.2 hmem

theorem mergeRow_cons (c : JObj) (k0 : String) (v0 : JVal) (rest : JObj) :
    mergeRow c ((k0, v0) :: rest) =
      mergeRow (if (k0 == "id") = true then c else jset c k0 v0) rest := rfl

theorem mergeRow_not_mem (row : JObj) :
    ∀ (c : JObj) (k : String), k ∉ row.map Prod.fst →
      jget (mergeRow c row) k = jget c k := by
  induction row with
  | nil => intro c k _; rfl
  | cons kv rest ih =>
    intro c k h
    obtain ⟨k0, v0⟩ := kv
    simp only [List.map_cons, List.mem_cons, not_or] at h
    rw [mergeRow_cons]
    rw [ih _ k h.2]
    by_cases h0 : k0 = "id"
    · rw [if_pos (strBeqTrue h0)]
    · rw [if_neg (strBeqFalse h0)]
      exact jget_jset_ne c k0 k v0 h.1

theorem mergeRow_id (row : JObj) :
    ∀ c : JObj, jget (mergeRow c row) "id" = jget c "id" := by
  induction row with
  | nil => intro c; rfl
  | cons kv rest ih =>
    intro c
    obtain ⟨k0, v0⟩ := kv
    rw [mergeRow_cons, ih]
    by_cases h0 : k0 = "id"
    · rw [if_pos (strBeqTrue h0)]
    · rw [if_neg (strBeqFalse h0)]
      exact jget_jset_ne c k0 "id" v0 (fun he => h0 he.symm)

theorem mergeRow_mem (row : JObj) :
    ∀ (c : JObj) (k : String) (v : JVal), (row.map Prod.fst).Nodup →
      (k, v) ∈ row → k ≠ "id" → jget (mergeRow c row) k = v := by
  induction row with
  | nil => intro c k v _ hmem _; cases hmem
  | cons kv rest ih =>
    intro c k v hn hmem hk
    obtain ⟨k0, v0⟩ := kv
    simp only [List.map_cons, List.nodup_cons] at hn
    rw [mergeRow_cons]
    rcases List.mem_cons.mp hmem with heq | hmem'
    · cases heq
      rw [if_neg (strBeqFalse hk)]
      rw [mergeRow_not_mem rest (jset c k v) k hn.1]
      exact jget_jset_self c k v
    · exact ih _ k v hn.2 hmem' hk

theorem findFirst_append_cons (p : JObj → Bool) (pre : List JObj) (c : JObj) (post : List JObj)
    (hpre : ∀ c' ∈ pre, p c' = false) (hc : p c = true) :
    findFirst p (pre ++ c :: post) = some c := by
  induction pre with
  | nil => simp [findFirst, hc]
  | cons x rest ih =>
    simp only [List.cons_append, findFirst]
    rw [hpre x (List.mem_cons_self x rest)]
    simp only [Bool.false_eq_true, if_false]
    exact ih (fun c' hc' => hpre c' (List.mem_cons_of_mem x hc'))

theorem updateFirst_append_cons (p : JObj → Bool) (f : JObj → JObj) (pre : List JObj)
    (c : JObj) (post : List JObj) (hpre : ∀ c' ∈ pre, p c' = false) (hc : p c = true) :
    updateFirst p f (pre ++ c :: post) = pre ++ f c :: post := by
  induction pre with
  | nil => simp [updateFirst, hc]
  | cons x rest ih =>
    simp only [List.cons_append, updateFirst]
    rw [hpre x (List.mem_cons_self x rest)]
    simp only [Bool.false_eq_true, if_false, List.cons.injEq, true_and]
    exact ih (fun c' hc' => hpre c' (List.mem_cons_of_mem x hc'))

/-- C5: processing one Databricks connector row: a row with a falsy
identifying column is skipped without touching the customer store;
with an identifier present, if a record matching
`(databricksId, ownerId)` exists, every returned field except `id`
is merged into that record while its fields absent from the row
(including `id`) stay unchanged and all other records are untouched;
if no record matches, a new record is appended carrying the row's
fields plus the owning account id and the warehouse identifier
stored under `databricksId`. -/
theorem databricks_row_upsert (ownerId : Int) (store : List JObj) (row : JObj) :
    (jsTruthy (jget row "id") = false → processCustomerRow ownerId store row = store) ∧
    (jsTruthy (jget row "id") = true →
      findFirst (matchesRow (jget row "id") ownerId) store = none →
      (processCustomerRow ownerId store row = store ++ [createFromRow ownerId row] ∧
       jget (createFromRow ownerId row) "databricksId" = jget row "id" ∧
       jget (createFromRow ownerId row) "ownerId" = .vnum ownerId ∧
       jget (createFromRow ownerId row) "id" = .vundef ∧
       ((row.map Prod.fst).Nodup → ∀ k v, (k, v) ∈ row →
         k ≠ "id" → k ≠ "ownerId" → k ≠ "databricksId" →
         jget (createFromRow ownerId row) k = v))) ∧
    (∀ pre c post,
      jsTruthy (jget row "id") = true →
      store = pre ++ c :: post →
      (∀ c' ∈ pre, matchesRow (jget row "id") ownerId c' = false) →
      matchesRow (jget row "id") ownerId c = true →
      (processCustomerRow ownerId store row = pre ++ mergeRow c row :: post ∧
       ((row.map Prod.fst).Nodup → ∀ k v, (k, v) ∈ row → k ≠ "id" →
         jget (mergeRow c row) k = v) ∧
       (∀ k, k ∉ row.map Prod.fst → jget (mergeRow c row) k = jget c k) ∧
       jget (mergeRow c row) "id" = jget c "id")) := by
  refine ⟨fun hid => ?_, fun hid hnone => ?_, fun pre c post hid hsplit hpre hc => ?_⟩
  · simp [processCustomerRow, hid]
  · refine ⟨?_, jget_jset_self _ _ _, ?_, ?_, fun hn k v hmem hk ho hd => ?_⟩
    · simp only [processCustomerRow, hid, Bool.true_eq_false, if_false]
      rw [hnone]
    · rw [createFromRow, jget_jset_ne _ _ _ _ (by decide),
          jget_jset_ne _ _ _ _ (by decide)]
      exact jget_jset_self _ _ _
    · rw [createFromRow, jget_jset_ne _ _ _ _ (by decide)]
      exact jget_jset_self _ _ _
    · rw [createFromRow, jget_jset_ne _ _ _ _ hd, jget_jset_ne _ _ _ _ hk,
          jget_jset_ne _ _ _ _ ho]
      exact jget_of_mem_nodup row hn k v hmem
  · subst hsplit
    refine ⟨?_, fun hn k v hmem hk => mergeRow_mem row c k v hn hmem hk,
      fun k hk => mergeRow_not_mem row c k hk, mergeRow_id row c⟩
    simp only [processCustomerRow, hid, Bool.true_eq_false, if_false]
    rw [findFirst_append_cons _ pre c post hpre hc]
    exact updateFirst_append_cons _ _ pre c post hpre hc

/-- Witness for `databricks_row_upsert`: syncing the row
`{id: "X", name: "Bob"}` against a store holding the matching record
`{databricksId: "X", ownerId: 7, name: "Al", age: 30}` replaces that
record by the merge, which updates `name` and leaves `age` unchanged. -/
theorem databricks_row_upsert_witness :
    processCustomerRow 7
        [[("databricksId", JVal.vstr "X"), ("ownerId", JVal.vnum 7),
          ("name", JVal.vstr "Al"), ("age", JVal.vnum 30)]]
        [("id", JVal.vstr "X"), ("name", JVal.vstr "Bob")] =
      [mergeRow
        [("databricksId", JVal.vstr "X"), ("ownerId", JVal.vnum 7),
         ("name", JVal.vstr "Al"), ("age", JVal.vnum 30)]
        [("id", JVal.vstr "X"), ("name", JVal.vstr "Bob")]] ∧
    jget (mergeRow
        [("databricksId", JVal.vstr "X"), ("ownerId", JVal.vnum 7),
         ("name", JVal.vstr "Al"), ("age", JVal.vnum 30)]
        [("id", JVal.vstr "X"), ("name", JVal.vstr "Bob")]) "name" = JVal.vstr "Bob" ∧
    jget (mergeRow
        [("databricksId", JVal.vstr "X"), ("ownerId", JVal.vnum 7),
         ("name", JVal.vstr "Al"), ("age", JVal.vnum 30)]
        [("id", JVal.vstr "X"), ("name", JVal.vstr "Bob")]) "age" = JVal.vnum 30 := by
  have h := (databricks_row_upsert 7
    [[("databricksId", JVal.vstr "X"), ("ownerId", JVal.vnum 7),
      ("name", JVal.vstr "Al"), ("age", JVal.vnum 30)]]
    [("id", JVal.vstr "X"), ("name", JVal.vstr "Bob")]).2.2
    []
    [("databricksId", JVal.vstr "X"), ("ownerId", JVal.vnum 7),
     ("name", JVal.vstr "Al"), ("age", JVal.vnum 30)]
    []
    rfl rfl (fun c' hc' => absurd hc' (List.not_mem_nil c')) rfl
  refine ⟨h.1, ?_, ?_⟩
  · exact h.2.1 (by decide) "name" (JVal.vstr "Bob")
      (List.Mem.tail _ (List.Mem.head _)) (by decide)
  · rw [h.2.2.1 "age" (by decide)]
    rfl

/-! ### Lemmas for the push-provider drain loop -/

/-- Deleting the first `n` fetched rows one by one (`delete(item)` on
each row of the batch, keyed by the row itself) removes exactly the
fetched prefix of the staging table. -/
theorem foldl_erase_take (l : List Nat) : ∀ n : Nat,
    (l.take n).foldl List.erase l = l.drop n := by
  induction l with
  | nil => intro n; cases n <;> rfl
  | cons x xs ih =>
    intro n
    cases n with
    | zero => rfl
    | succ n =>
      show List.foldl List.erase ((x :: xs).erase x) (xs.take n) = xs.drop n
      rw [List.erase_cons_head]
      exact ih n

theorem sgDrain_step (fuel : Nat) (st : SgState) (h : st.staging ≠ []) :
    sgDrain (fuel + 1) st =
      sgDrain fuel
        ⟨st.staging.drop BATCH_SIZE,
         st.sink ++ (st.staging.take BATCH_SIZE).map (fun r => (r, "sendgrid")),
         st.fetchLog ++ [(st.staging.take BATCH_SIZE).length]⟩ := by
  have hbatch : (st.staging.take BATCH_SIZE).length > 0 := by
    rw [List.length_take]
    exact lt_min (by norm_num [BATCH_SIZE]) (List.length_pos.mpr h)
  simp only [sgDrain]
  rw [if_pos hbatch, foldl_erase_take]

theorem sgDrain_done (fuel : Nat) (st : SgState) (h : st.staging = []) :
    sgDrain (fuel + 1) st = some ⟨st.staging, st.sink, st.fetchLog ++ [0]⟩ := by
  simp only [sgDrain, h, List.take_nil, List.length_nil]
  rfl

/-- Every drain run with enough fuel finishes with an empty staging
table: each iteration deletes its nonempty fetched batch, so the
staging length strictly decreases until the empty fetch ends the
loop. -/
theorem sgDrain_total (n : Nat) : ∀ st : SgState, st.staging.length ≤ n →
    ∃ final, sgDrain (n + 1) st = some final ∧ final.staging = [] := by
  induction n with
  | zero =>
    intro st h
    have hnil : st.staging = [] := List.eq_nil_of_length_eq_zero (Nat.le_zero.mp h)
    exact ⟨_, sgDrain_done 0 st hnil, hnil⟩
  | succ n ih =>
    intro st h
    by_cases hnil : st.staging = []
    · exact ⟨_, sgDrain_done (n + 1) st hnil, hnil⟩
    · rw [sgDrain_step (n + 1) st hnil]
      apply ih
      have h1 : 0 < st.staging.length := List.length_pos.mpr hnil
      have h2 : 0 < BATCH_SIZE := by norm_num [BATCH_SIZE]
      simp only [List.length_drop]
      omega

/-- C6: the push-provider drain loop terminates exactly when the
staging store yields zero rows (any run with fuel beyond the staging
size ends with empty staging), and on each iteration the fetched
batch of at most 500 rows is tagged with the provider name and
bulk-inserted into the sink before its rows are deleted from staging.
Seeded with 1200 rows, the loop performs draining fetches of 500,
500 and 200 rows, stops on the final empty fetch, and leaves staging
empty with all 1200 tagged records in the sink. -/
theorem sendgrid_drain_loop :
    (∀ st : SgState, ∃ final,
      sgDrain (st.staging.length + 1) st = some final ∧ final.staging = []) ∧
    (∀ staging : List Nat, staging.length = 1200 →
      sgDrain 4 ⟨staging, [], []⟩ =
        some ⟨[], staging.map (fun r => (r, "sendgrid")), [500, 500, 200, 0]⟩) := by
  constructor
  · intro st
    exact sgDrain_total st.staging.length st (le_refl _)
  · intro staging hlen
    show sgDrain (3 + 1) ⟨staging, [], []⟩ = _
    rw [sgDrain_step 3 _ (by
      apply List.length_pos.mp
      show 0 < staging.length
      omega)]
    dsimp only
    show sgDrain (2 + 1) _ = _
    rw [sgDrain_step 2 _ (by
      apply List.length_pos.mp
      show 0 < (staging.drop BATCH_SIZE).length
      simp only [List.length_drop, BATCH_SIZE, hlen]
      omega)]
    dsimp only
    show sgDrain (1 + 1) _ = _
    rw [sgDrain_step 1 _ (by
      apply List.length_pos.mp
      show 0 < ((staging.drop BATCH_SIZE).drop BATCH_SIZE).length
      simp only [List.length_drop, BATCH_SIZE, hlen]
      omega)]
    dsimp only
    have hnil3 : ((staging.drop BATCH_SIZE).drop BATCH_SIZE).drop BATCH_SIZE = [] := by
      apply List.eq_nil_of_length_eq_zero
      simp only [List.length_drop, BATCH_SIZE, hlen]
    have htake : ((staging.drop BATCH_SIZE).drop BATCH_SIZE).take BATCH_SIZE =
        (staging.drop BATCH_SIZE).drop BATCH_SIZE := by
      apply List.take_of_length_le
      simp only [List.length_drop, BATCH_SIZE, hlen]
      omega
    rw [hnil3]
    show sgDrain (0 + 1) _ = _
    rw [sgDrain_done 0 _ rfl]
    simp only [Option.some.injEq, SgState.mk.injEq]
    refine ⟨trivial, ?_, ?_⟩
    · rw [List.nil_append, htake, List.append_assoc, ← List.map_append,
        List.take_append_drop, ← List.map_append, List.take_append_drop]
    · rw [htake]
      simp only [List.length_take, List.length_drop, hlen, BATCH_SIZE, List.nil_append,
        List.append_assoc, List.singleton_append, List.cons_append, List.cons.injEq,
        List.nil_eq, and_true]
      norm_num

/-- Witness for `sendgrid_drain_loop`: the concrete 1200-row staging
store `0, …, 1199` drains in fetches of 500, 500, 200 and a final
empty fetch, ending with empty staging and 1200 tagged sink rows. -/
theorem sendgrid_drain_loop_witness :
    sgDrain 4 ⟨List.range 1200, [], []⟩ =
      some ⟨[], (List.range 1200).map (fun r => (r, "sendgrid")), [500, 500, 200, 0]⟩ :=
  sendgrid_drain_loop.2 (List.range 1200) (by simp)

/-! ### Lemmas for the schema-discovery key aggregation -/

theorem mem_keys_addSample (k x : String) (v : JVal) :
    ∀ acc : List (String × List JVal),
      x ∈ (addSample acc k v).map Prod.fst → x ∈ acc.map Prod.fst ∨ x = k := by
  intro acc
  induction acc with
  | nil =>
    intro h
    simp [addSample] at h
    exact Or.inr h
  | cons kv rest ih =>
    obtain ⟨k0, vs⟩ := kv
    intro h
    by_cases h0 : k0 = k
    · simp only [addSample] at h
      rw [if_pos (strBeqTrue h0)] at h
      simp only [List.map_cons, List.mem_cons] at h
      rcases h with h | h
      · exact Or.inr h
      · exact Or.inl (by simp [List.mem_cons, h])
    · simp only [addSample] at h
      rw [if_neg (strBeqFalse h0)] at h
      simp only [List.map_cons, List.mem_cons] at h
      rcases h with h | h
      · exact Or.inl (by simp [h])
      · rcases ih h with h' | h'
        · exact Or.inl (by simp [List.mem_cons, h'])
        · exact Or.inr h'

theorem keys_addSample_nodup (k : String) (v : JVal) :
    ∀ acc : List (String × List JVal),
      (acc.map Prod.fst).Nodup → ((addSample acc k v).map Prod.fst).Nodup := by
  intro acc
  induction acc with
  | nil => intro _; simp [addSample]
  | cons kv rest ih =>
    obtain ⟨k0, vs⟩ := kv
    intro hn
    simp only [List.map_cons, List.nodup_cons] at hn
    by_cases h0 : k0 = k
    · simp only [addSample]
      rw [if_pos (strBeqTrue h0)]
      simp only [List.map_cons, List.nodup_cons]
      exact ⟨h0 ▸ hn.1, hn.2⟩
    · simp only [addSample]
      rw [if_neg (strBeqFalse h0)]
      simp only [List.map_cons, List.nodup_cons]
      refine ⟨fun hmem => ?_, ih hn.2⟩
      rcases mem_keys_addSample k k0 v rest hmem with h' | h'
      · exact hn.1 h'
      · exact h0 h'

theorem mem_keys_addObjSamples (x : String) :
    ∀ (obj : JObj) (acc : List (String × List JVal)),
      x ∈ (addObjSamples acc obj).map Prod.fst →
        x ∈ acc.map Prod.fst ∨ x ∉ KEYS_TO_SKIP := by
  intro obj
  induction obj with
  | nil => intro acc h; exact Or.inl h
  | cons kv rest ih =>
    intro acc h
    rcases ih _ h with h' | h'
    · dsimp only at h'
      by_cases hskip : kv.1 ∈ KEYS_TO_SKIP
      · rw [if_pos hskip] at h'
        exact Or.inl h'
      · rw [if_neg hskip] at h'
        rcases mem_keys_addSample kv.1 x kv.2 acc h' with h2 | h2
        · exact Or.inl h2
        · exact Or.inr (h2 ▸ hskip)
    · exact Or.inr h'

theorem keys_addObjSamples_nodup :
    ∀ (obj : JObj) (acc : List (String × List JVal)),
      (acc.map Prod.fst).Nodup → ((addObjSamples acc obj).map Prod.fst).Nodup := by
  intro obj
  induction obj with
  | nil => intro acc hn; exact hn
  | cons kv rest ih =>
    intro acc hn
    apply ih
    dsimp only
    by_cases hskip : kv.1 ∈ KEYS_TO_SKIP
    · rw [if_pos hskip]; exact hn
    · rw [if_neg hskip]; exact keys_addSample_nodup kv.1 kv.2 acc hn

theorem keys_aggregate_not_skip_aux (x : String) :
    ∀ (customers : List JObj) (acc : List (String × List JVal)),
      x ∈ ((customers.foldl addObjSamples acc).map Prod.fst) →
        x ∈ acc.map Prod.fst ∨ x ∉ KEYS_TO_SKIP := by
  intro customers
  induction customers with
  | nil => intro acc h; exact Or.inl h
  | cons obj rest ih =>
    intro acc h
    rcases ih _ h with h' | h'
    · exact mem_keys_addObjSamples x obj acc h'
    · exact Or.inr h'

theorem keys_aggregate_nodup (customers : List JObj) :
    ((aggregateKeys customers).map Prod.fst).Nodup := by
  have haux : ∀ (cs : List JObj) (acc : List (String × List JVal)),
      (acc.map Prod.fst).Nodup → ((cs.foldl addObjSamples acc).map Prod.fst).Nodup := by
    intro cs
    induction cs with
    | nil => intro acc hn; exact hn
    | cons obj rest ih => intro acc hn; exact ih _ (keys_addObjSamples_nodup obj acc hn)
  exact haux customers [] List.nodup_nil

theorem keys_aggregate_not_skip (customers : List JObj) (x : String)
    (h : x ∈ (aggregateKeys customers).map Prod.fst) : x ∉ KEYS_TO_SKIP := by
  rcases keys_aggregate_not_skip_aux x customers [] h with h' | h'
  · cases h'
  · exact h'

theorem mem_keys_upserts (isEmail isDateString : JVal → Bool) (x : String) :
    ∀ l : List (String × List JVal),
      x ∈ ((l.filterMap
        (fun kv => (processKey isEmail isDateString kv.2).map (fun m => (kv.1, m)))).map
          Prod.fst) →
      x ∈ l.map Prod.fst := by
  intro l
  induction l with
  | nil => intro h; cases h
  | cons kv rest ih =>
    intro h
    rw [List.filterMap_cons] at h
    cases hp : (processKey isEmail isDateString kv.2).map (fun m => (kv.1, m)) with
    | none => rw [hp] at h; exact List.mem_cons_of_mem _ (ih h)
    | some km =>
      rw [hp] at h
      simp only [List.map_cons, List.mem_cons] at h
      rcases h with h | h
      · cases hq : processKey isEmail isDateString kv.2 with
        | none => rw [hq] at hp; cases hp
        | some m =>
          rw [hq] at hp
          simp only [Option.map_some'] at hp
          cases hp
          simp [h]
      · exact List.mem_cons_of_mem _ (ih h)

theorem count_keys_filterMap (isEmail isDateString : JVal → Bool) :
    ∀ l : List (String × List JVal), (l.map Prod.fst).Nodup →
      ∀ (k : String) (samples : List JVal), (k, samples) ∈ l →
        ((l.filterMap (fun kv => (processKey isEmail isDateString kv.2).map
            (fun m => (kv.1, m)))).map Prod.fst).count k =
          if (processKey isEmail isDateString samples).isSome then 1 else 0 := by
  intro l
  induction l with
  | nil => intro _ k samples hmem; cases hmem
  | cons kv rest ih =>
    intro hn k samples hmem
    simp only [List.map_cons, List.nodup_cons] at hn
    rw [List.filterMap_cons]
    rcases List.mem_cons.mp hmem with heq | hmem'
    · subst heq
      dsimp only at hn
      cases hp : processKey isEmail isDateString samples with
      | none =>
        rw [Option.map_none']
        dsimp only
        simp only [Option.isSome_none, Bool.false_eq_true, if_false]
        rw [List.count_eq_zero]
        intro hmem2
        exact hn.1 (mem_keys_upserts isEmail isDateString k rest hmem2)
      | some m =>
        rw [Option.map_some']
        dsimp only
        simp only [Option.isSome_some, if_true, List.map_cons]
        rw [List.count_cons_self]
        have hzero : ((rest.filterMap (fun kv => (processKey isEmail isDateString kv.2).map
            (fun m => (kv.1, m)))).map Prod.fst).count k = 0 := by
          rw [List.count_eq_zero]
          intro hmem2
          exact hn.1 (mem_keys_upserts isEmail isDateString k rest hmem2)
        rw [hzero]
    · have hk0 : kv.1 ≠ k := by
        intro he
        exact hn.1 (he ▸ List.mem_map.mpr ⟨(k, samples), hmem', rfl⟩)
      cases hp0 : processKey isEmail isDateString kv.2 with
      | none =>
        rw [Option.map_none']
        dsimp only
        exact ih hn.2 k samples hmem'
      | some m =>
        rw [Option.map_some']
        dsimp only
        simp only [List.map_cons]
        rw [List.count_cons_of_ne (fun he => hk0 he.symm)]
        exact ih hn.2 k samples hmem'

/-- C7: for every field aggregated by the Schema Discovery Job: when
no accumulated sample is usable (every sample is the empty string,
undefined, or null), no FieldMetadata upsert is produced for that
field — a silent skip of the total (error-free) per-field step; when
at least one usable sample exists, the run produces exactly one
upsert keyed on the field name. -/
theorem discovery_skip_or_single_upsert (isEmail isDateString : JVal → Bool)
    (customers : List JObj) (k : String) (samples : List JVal)
    (hmem : (k, samples) ∈ aggregateKeys customers) :
    ((∀ v ∈ samples, usableSample v = false) →
      k ∉ (customerKeysUpserts isEmail isDateString customers).map Prod.fst) ∧
    ((∃ v ∈ samples, usableSample v = true) →
      ((customerKeysUpserts isEmail isDateString customers).map Prod.fst).count k = 1) := by
  have hcount := count_keys_filterMap isEmail isDateString (aggregateKeys customers)
    (keys_aggregate_nodup customers) k samples hmem
  constructor
  · intro hall
    have hfind : samples.find? usableSample = none :=
      List.find?_eq_none.mpr (fun x hx => by simp [hall x hx])
    have hpk : processKey isEmail isDateString samples = none := by
      simp only [processKey, hfind]
    rw [hpk] at hcount
    simp only [Option.isSome_none, Bool.false_eq_true, if_false] at hcount
    exact List.count_eq_zero.mp hcount
  · rintro ⟨v, hv, husable⟩
    have hsome : (samples.find? usableSample).isSome :=
      List.find?_isSome.mpr ⟨v, hv, husable⟩
    obtain ⟨w, hw⟩ := Option.isSome_iff_exists.mp hsome
    have hpw : usableSample w = true := List.find?_some hw
    have hpk : processKey isEmail isDateString samples =
        some (inferKeyMeta isEmail isDateString w) := by
      simp only [processKey, hw, hpw]
      simp
    rw [hpk] at hcount
    simpa using hcount

/-- Witness for `discovery_skip_or_single_upsert`: in a run over one
customer `{email: "a@b.c", phone: null}`, the `phone` field (whose
only sample is null) produces no upsert, while `email` produces
exactly one upsert keyed `email`. -/
theorem discovery_skip_or_single_upsert_witness :
    "phone" ∉ (customerKeysUpserts (fun _ => false) (fun _ => false)
        [[("email", JVal.vstr "a@b.c"), ("phone", JVal.vnull)]]).map Prod.fst ∧
    ((customerKeysUpserts (fun _ => false) (fun _ => false)
        [[("email", JVal.vstr "a@b.c"), ("phone", JVal.vnull)]]).map Prod.fst).count
      "email" = 1 := by
  have h1 := (discovery_skip_or_single_upsert (fun _ => false) (fun _ => false)
    [[("email", JVal.vstr "a@b.c"), ("phone", JVal.vnull)]] "phone" [JVal.vnull]
    (List.Mem.tail _ (List.Mem.head _))).1
  have h2 := (discovery_skip_or_single_upsert (fun _ => false) (fun _ => false)
    [[("email", JVal.vstr "a@b.c"), ("phone", JVal.vnull)]] "email" [JVal.vstr "a@b.c"]
    (List.Mem.head _)).2
  refine ⟨h1 ?_, h2 ⟨JVal.vstr "a@b.c", List.Mem.head _, rfl⟩⟩
  intro v hv
  rw [List.mem_singleton.mp hv]
  rfl

/-- C8: no FieldMetadata is ever written for the structural keys
`__v`, `_id`, `audiences`, `ownerId`: the scan filters them out
before aggregation, so no upsert of any run carries such a key,
whatever the records contain. -/
theorem structural_keys_never_upserted (isEmail isDateString : JVal → Bool)
    (customers : List JObj) (k : String) (hk : k ∈ KEYS_TO_SKIP) :
    k ∉ (customerKeysUpserts isEmail isDateString customers).map Prod.fst := by
  intro hmem
  exact keys_aggregate_not_skip customers k
    (mem_keys_upserts isEmail isDateString k (aggregateKeys customers) hmem) hk

/-- Witness for `structural_keys_never_upserted`: `ownerId` is not
among the upserted keys of a run over a record that contains an
`ownerId` field. -/
theorem structural_keys_never_upserted_witness :
    "ownerId" ∉ (customerKeysUpserts (fun _ => false) (fun _ => false)
      [[("ownerId", JVal.vnum 1), ("name", JVal.vstr "a")]]).map Prod.fst :=
  structural_keys_never_upserted (fun _ => false) (fun _ => false)
    [[("ownerId", JVal.vnum 1), ("name", JVal.vstr "a")]] "ownerId" (by decide)
